import Mathlib

/-!
Shallow embedding of the goldmark-markdown renderer (package `markdown`,
file `renderer.go`) and proofs about the behaviour its specification
describes.  Byte sequences are modelled as `List Char` (one entry per rune);
where the Go code works with byte positions (`for i, c := range s`,
`len(s)`) we compute the UTF-8 byte offsets explicitly via `Char.utf8Size`.
Writer calls are modelled as an emitted event trace (`WEvt`), because the
claims under study are about what the handlers hand to the writer, not
about the writer's own line/prefix mechanics (whose source file is not part
of the sources given here).
-/

namespace GoldmarkMd

/-- The backtick character (code point 96), written via `Char.ofNat`. -/
def bq : Char := Char.ofNat 96

/-- Go `unicode.IsSpace`: the Unicode White_Space code points
(TAB..CR, SPACE, NEL, NBSP, ogham space mark, the general punctuation
spaces, line/paragraph separator, narrow no-break space, medium
mathematical space, ideographic space). -/
def goIsSpace (c : Char) : Bool :=
  let n := c.toNat
  (9 ≤ n && n ≤ 13) || n == 32 || n == 0x85 || n == 0xA0 || n == 0x1680 ||
    (0x2000 ≤ n && n ≤ 0x200A) || n == 0x2028 || n == 0x2029 ||
    n == 0x202F || n == 0x205F || n == 0x3000

/-- Go `len(s)` for a string holding these runes: total UTF-8 byte length. -/
def utf8Len (s : List Char) : Nat := (s.map Char.utf8Size).sum

/-- One call made by a handler against the markdown writer.  `bytes` is
`WriteBytes`/`WriteByte`, `writeLine` is `WriteLine`, `flushLine` is
`FlushLine`, `endLine` is `EndLine`, `pushPfx b lims` is
`PushPrefix(b, lims...)` and `popPfx` is `PopPrefix`. -/
inductive WEvt where
  | bytes (b : List Char)
  | writeLine (b : List Char)
  | flushLine
  | endLine
  | pushPfx (b : List Char) (lineLimits : List Nat)
  | popPfx
deriving DecidableEq

/-- Concatenated payload of an event trace, as flattened output text.
Modelled from the spec: with an empty line-prefix stack every written byte
reaches the output stream unchanged and `EndLine` marks a hard line break;
`FlushLine` and the prefix-stack events carry no payload of their own. -/
def payloadConcat (evs : List WEvt) : List Char :=
  evs.foldr (fun e acc =>
    (match e with
     | .bytes b => b
     | .writeLine b => b
     | .flushLine => []
     | .endLine => ['\n']
     | .pushPfx _ _ => []
     | .popPfx => []) ++ acc) []

/-! ## Code spans (`renderCodeSpan`, renderer.go lines 523-587)

`codeSpanContext` (renderer.go lines 681-687) holds the delimiter width and
the padding decision.  `renderCodeSpan` also sets `skipTranslation` on
enter and clears it on exit; that flag is consulted only by `renderText`
and plays no role in the code-span claims, so it is not threaded here. -/

/-- The persistent code-span state of the render context
(`codeSpanContext`, renderer.go lines 681-687). -/
structure CodeSpanCtx where
  backtickLength : Nat
  padSpace : Bool
deriving DecidableEq

/-- Zero value of `codeSpanContext` inside a freshly created
`renderContext` (see `newRenderContext`, renderer.go lines 689-695). -/
def csInit : CodeSpanCtx := ⟨0, false⟩

/-- State of the single content scan in `renderCodeSpan`
(renderer.go lines 535-541). -/
structure ScanSt where
  beginsWithSpace : Bool
  endsWithSpace : Bool
  beginsWithBackTick : Bool
  endsWithBackTick : Bool
  isOnlySpace : Bool
  backtickLengths : List Nat
  count : Nat
deriving DecidableEq

/-- Initial scan state: `isOnlySpace := true`, everything else zero
(renderer.go lines 535-541). -/
def scanInit : ScanSt := ⟨false, false, false, false, true, [], 0⟩

/-- One iteration of the `for i, c := range contents` loop in
`renderCodeSpan` (renderer.go lines 542-559).  `i` is the UTF-8 byte
offset of `c`, `total` is `len(contents)` in bytes. -/
def scanStep (total i : Nat) (st : ScanSt) (c : Char) : ScanSt :=
  let st1 :=
    if i = 0 then
      { st with beginsWithSpace := goIsSpace c, beginsWithBackTick := c = bq }
    else if i = total - 1 then
      { st with endsWithSpace := goIsSpace c, endsWithBackTick := c = bq }
    else st
  let st2 := if goIsSpace c then st1 else { st1 with isOnlySpace := false }
  if c = bq then { st2 with count := st2.count + 1 }
  else if st2.count > 0 then
    { st2 with backtickLengths := st2.backtickLengths ++ [st2.count], count := 0 }
  else st2

/-- The whole `range` loop, tracking the running byte offset. -/
def scanLoop (total : Nat) : Nat → ScanSt → List Char → ScanSt
  | _, st, [] => st
  | i, st, c :: rest => scanLoop total (i + c.utf8Size) (scanStep total i st c) rest

/-- The scan of `renderCodeSpan`, including the trailing
`if count > 0 { backtickLengths = append(backtickLengths, count) }`
(renderer.go lines 560-562). -/
def scanContents (s : List Char) : ScanSt :=
  let st := scanLoop (utf8Len s) 0 scanInit s
  if st.count > 0 then
    { st with backtickLengths := st.backtickLengths ++ [st.count] }
  else st

/-- The delimiter-selection loop
`for i := 1; i <= len(contentBytes); i++ { if !slices.Contains(...) ... }`
(renderer.go lines 565-570): first `i`, counting up from `lo` with `fuel`
remaining candidates, that is not contained in `L`; `none` if the loop
finishes without a hit. -/
def pickWidthLoop (L : List Nat) : Nat → Nat → Option Nat
  | _, 0 => none
  | lo, fuel + 1 => if L.contains lo then pickWidthLoop L (lo + 1) fuel else some lo

/-- Entering a code-span node (renderer.go lines 524-577): scan the
concatenated child content, choose the delimiter width (keeping the stored
width when the loop finds nothing), emit the opening delimiter and, when
the padding condition holds, set `padSpace` and emit one space. -/
def renderCodeSpanEnter (ctx : CodeSpanCtx) (contents : List Char) :
    CodeSpanCtx × List WEvt :=
  let st := scanContents contents
  let width := (pickWidthLoop st.backtickLengths 1 (utf8Len contents)).getD ctx.backtickLength
  let ctx := { ctx with backtickLength := width }
  let evs := [WEvt.bytes (List.replicate ctx.backtickLength bq)]
  if st.beginsWithSpace && st.endsWithSpace && !st.isOnlySpace ||
      st.beginsWithBackTick || st.endsWithBackTick then
    ({ ctx with padSpace := true }, evs ++ [WEvt.bytes [' ']])
  else (ctx, evs)

/-- Exiting a code-span node (renderer.go lines 578-584): emit the pad
space if `padSpace` is set, then the closing delimiter.  Note the handler
does not reset `codeSpanContext`. -/
def renderCodeSpanExit (ctx : CodeSpanCtx) : List WEvt :=
  (if ctx.padSpace then [WEvt.bytes [' ']] else []) ++
    [WEvt.bytes (List.replicate ctx.backtickLength bq)]

/-- A full code-span node: enter events, the child text (emitted verbatim
by `renderText` under `skipTranslation`), exit events; returns the updated
persistent context. -/
def renderCodeSpanNode (ctx : CodeSpanCtx) (contents : List Char) :
    CodeSpanCtx × List WEvt :=
  let (ctx', enter) := renderCodeSpanEnter ctx contents
  (ctx', enter ++ [WEvt.bytes contents] ++ renderCodeSpanExit ctx')

/-- A sequence of code-span nodes rendered in one render call: the
`codeSpanContext` is threaded from span to span exactly as the mutable
`renderContext` field is. -/
def renderCodeSpans (ctx : CodeSpanCtx) : List (List Char) → List (List WEvt)
  | [] => []
  | c :: rest =>
    let (ctx', evs) := renderCodeSpanNode ctx c
    evs :: renderCodeSpans ctx' rest

/-- Maximal backtick-run lengths of a content, written directly: `k` is
the length of the backtick run immediately before the remaining input. -/
def runsAux : Nat → List Char → List Nat
  | k, [] => if k > 0 then [k] else []
  | k, c :: rest =>
    if c = bq then runsAux (k + 1) rest
    else if k > 0 then k :: runsAux 0 rest
    else runsAux 0 rest

/-- The multiset (kept in order of occurrence) of maximal backtick-run
lengths of a code-span content. -/
def backtickRunLengths (s : List Char) : List Nat := runsAux 0 s

/-- `m` is the smallest positive integer not present in `L`. -/
def isLeastAbsent (L : List Nat) (m : Nat) : Prop :=
  0 < m ∧ m ∉ L ∧ ∀ j, j < m → 0 < j → j ∈ L

instance (L : List Nat) (m : Nat) : Decidable (isLeastAbsent L m) := by
  unfold isLeastAbsent; infer_instance

/-- Begins-with test at character level, as the claims phrase it. -/
def listBeginsWith (p : Char → Bool) : List Char → Bool
  | [] => false
  | c :: _ => p c

/-- Ends-with test at character level, as the claims phrase it. -/
def listEndsWith (p : Char → Bool) (s : List Char) : Bool :=
  match s.getLast? with
  | some c => p c
  | none => false

/-- The padding condition exactly as claim C9 words it: begins and ends
with whitespace without being entirely whitespace, or begins or ends with
a backtick. -/
def claimPadCond (s : List Char) : Bool :=
  (listBeginsWith goIsSpace s && listEndsWith goIsSpace s && !(s.all goIsSpace)) ||
    listBeginsWith (· = bq) s || listEndsWith (· = bq) s

/-- The backtick-run list after the loop, as used by the selection loop:
`backtickLengths`, extended by the final pending `count` when positive. -/
def finalizeRuns (st : ScanSt) : List Nat :=
  if st.count > 0 then st.backtickLengths ++ [st.count] else st.backtickLengths

/-! ## Text runs (`renderText`, renderer.go lines 379-456) -/

/-- The text-accumulation fields of `renderContext` together with the
observable effects of `renderText`: the write-event trace and the list of
plain-text keys handed to the Transform hook. -/
structure TextRC where
  textBuffer : List Char
  textBufferActive : Bool
  pendingLineBreaks : List Bool
  writes : List WEvt
  hookCalls : List (List Char)
deriving DecidableEq

/-- Fresh text-accumulation state of a newly created render context. -/
def textInit : TextRC := ⟨[], false, [], [], []⟩

/-- Go `strings.TrimLeftFunc(s, unicode.IsSpace)`. -/
def goTrimLeft (s : List Char) : List Char := s.dropWhile goIsSpace

/-- Go `strings.TrimRightFunc(s, unicode.IsSpace)`. -/
def goTrimRight (s : List Char) : List Char := (s.reverse.dropWhile goIsSpace).reverse

/-- Go `strings.TrimSpace`. -/
def goTrimSpace (s : List Char) : List Char := goTrimRight (goTrimLeft s)

/-- The leading whitespace kept aside by `renderText`
(`textStr[:len(textStr)-len(strings.TrimLeftFunc(...))]`). -/
def leadingSpacesOf (s : List Char) : List Char := s.takeWhile goIsSpace

/-- The trailing whitespace kept aside by `renderText`
(`textStr[len(strings.TrimRightFunc(...)):]`). -/
def trailingSpacesOf (s : List Char) : List Char := (s.reverse.takeWhile goIsSpace).reverse

/-- `renderText` on one entered text node (renderer.go lines 379-456).
`hook` is `config.TextTransformer` restricted to plain text (`none` models
a nil transformer, and a `none` result models `ok == false`), `skip` is
`rc.skipTranslation`, `content` is `n.Value(source)`, `softBreak` is
`n.SoftLineBreak()` and `nextIsSibling` tells whether the next sibling is
another text node. -/
def renderTextNode (hook : Option (List Char → Option (List Char))) (skip : Bool)
    (st : TextRC) (content : List Char) (softBreak nextIsSibling : Bool) : TextRC :=
  let st :=
    if !st.textBufferActive then
      let st := { st with textBuffer := content, textBufferActive := true }
      if softBreak then { st with pendingLineBreaks := st.pendingLineBreaks ++ [true] }
      else st
    else
      let st :=
        if st.pendingLineBreaks.length > 0 then
          { st with
            textBuffer := st.textBuffer ++
              (st.pendingLineBreaks.filter id).map (fun _ => '\n'),
            pendingLineBreaks := [] }
        else st
      let st := { st with textBuffer := st.textBuffer ++ content }
      if softBreak then { st with pendingLineBreaks := st.pendingLineBreaks ++ [true] }
      else st
  if !nextIsSibling then
    let textStr := st.textBuffer
    let (textStr, st) :=
      match hook, skip with
      | some h, false =>
        let trimmed := goTrimSpace textStr
        let st := { st with hookCalls := st.hookCalls ++ [trimmed] }
        match h trimmed with
        | some tr => (leadingSpacesOf textStr ++ tr ++ trailingSpacesOf textStr, st)
        | none => (textStr, st)
      | _, _ => (textStr, st)
    let st := { st with writes := st.writes ++ [WEvt.bytes textStr] }
    let st :=
      if st.pendingLineBreaks.getLastD false then
        { st with writes := st.writes ++ [WEvt.endLine] }
      else st
    { st with textBufferActive := false, pendingLineBreaks := [] }
  else st

/-- A maximal run of sibling text nodes, processed in document order; a
node's `nextIsSibling` is true exactly when more nodes of the run follow. -/
def renderTextRun (hook : Option (List Char → Option (List Char))) (skip : Bool)
    (st : TextRC) : List (List Char × Bool) → TextRC
  | [] => st
  | (c, b) :: rest =>
    renderTextRun hook skip (renderTextNode hook skip st c b (!rest.isEmpty)) rest

/-- The newline bytes materialised for a recorded pending-break list. -/
def breaksOf (P : List Bool) : List Char := (P.filter id).map (fun _ => '\n')

/-- Claim-level coalescing of a run: the nodes' contents concatenated with
one newline byte for each recorded soft break between nodes (the final
node's break is not part of the coalesced text). -/
def coalesceRun : List (List Char × Bool) → List Char
  | [] => []
  | [(c, _)] => c
  | (c, b) :: rest => c ++ (if b then ['\n'] else []) ++ coalesceRun rest

/-! ## Raw-markup (HTML) blocks (`renderHTMLBlock`, renderer.go lines 275-311) -/

/-- `renderHTMLBlock` for one phase.  `lines` are the values of the block's
line segments, `closure` the value of `ClosureLine` when `HasClosure()`.
Returns the events written in this phase.  On enter with a configured
transformer the lines and the closure line are concatenated and offered to
the hook as raw markup; a replacement is written directly.  The exit phase
always writes the closure line when there is one.  The handler's
`skipTranslation` toggling (set on the enter fallback, cleared on exit) is
consulted only by `renderText` and is elided here. -/
def renderHTMLBlock (hook : Option (List Char → Option (List Char)))
    (lines : List (List Char)) (closure : Option (List Char)) (entering : Bool) :
    List WEvt :=
  if entering then
    let fallback := lines.foldr (fun l acc => [WEvt.bytes l, WEvt.flushLine] ++ acc) []
    match hook with
    | some h =>
      let htmlContent := (lines.foldl (· ++ ·) []) ++ closure.getD []
      match h htmlContent with
      | some translation => [WEvt.bytes translation]
      | none => fallback
    | none => fallback
  else
    match closure with
    | some cl => [WEvt.writeLine cl]
    | none => []

/-- A whole raw-markup block node: the walker calls the handler entering,
the node has no children, then calls it exiting. -/
def renderHTMLBlockNode (hook : Option (List Char → Option (List Char)))
    (lines : List (List Char)) (closure : Option (List Char)) : List WEvt :=
  renderHTMLBlock hook lines closure true ++ renderHTMLBlock hook lines closure false

/-! ## Links and images (`renderLink` lines 477-496, `renderImage` lines
498-521): the skip-translation flag around destination and title -/

/-- The skip-translation flag plus the write trace, each write tagged with
the flag's value at the moment of the write. -/
structure SkipTrace where
  skipTranslation : Bool
  writes : List (List Char × Bool)
deriving DecidableEq

/-- `writer.WriteBytes` under the current flag. -/
def stWrite (s : SkipTrace) (b : List Char) : SkipTrace :=
  { s with writes := s.writes ++ [(b, s.skipTranslation)] }

/-- Mutating `rc.skipTranslation`. -/
def stSetSkip (s : SkipTrace) (v : Bool) : SkipTrace := { s with skipTranslation := v }

/-- `renderLink`, entering: write the opening bracket. -/
def renderLinkEnter (s : SkipTrace) : SkipTrace := stWrite s "[".toList

/-- `renderLink`, exiting (renderer.go lines 482-494): set the flag, write
destination and optional quoted title, write the closing paren, clear the
flag.  The flag stays set across the whole title. -/
def renderLinkExit (dest title : List Char) (s : SkipTrace) : SkipTrace :=
  let s := stSetSkip s true
  let s := stWrite s "](".toList
  let s := stWrite s dest
  let s :=
    if title.length > 0 then
      let s := stWrite s " \"".toList
      let s := stWrite s title
      stWrite s "\"".toList
    else s
  let s := stWrite s ")".toList
  stSetSkip s false

/-- `renderImage`, entering: write the image opener. -/
def renderImageEnter (s : SkipTrace) : SkipTrace := stWrite s "![".toList

/-- `renderImage`, exiting (renderer.go lines 503-519): like a link, but
the flag is turned off just around the title bytes and back on for the
closing quote. -/
def renderImageExit (dest title : List Char) (s : SkipTrace) : SkipTrace :=
  let s := stSetSkip s true
  let s := stWrite s "](".toList
  let s := stWrite s dest
  let s :=
    if title.length > 0 then
      let s := stWrite s " \"".toList
      let s := stSetSkip s false
      let s := stWrite s title
      let s := stSetSkip s true
      stWrite s "\"".toList
    else s
  let s := stWrite s ")".toList
  stSetSkip s false

/-! ## Tables (`renderTableHeader`, renderer.go lines 606-635) -/

/-- Per-column alignment metadata of a table (`east.Alignment`); `other`
stands for `AlignNone` or any unrecognised value (the `default` case). -/
inductive CellAlign where
  | left
  | right
  | center
  | other
deriving DecidableEq

/-- The bytes written for one column of the synthesized separator row
(the `switch alignment` in renderer.go lines 620-629). -/
def alignSepBytes : CellAlign → List Char
  | .left => ":----- ".toList
  | .right => "-----: ".toList
  | .center => ":----: ".toList
  | .other => "----- ".toList

/-- `renderTableHeader` when exiting the header row (renderer.go lines
610-632): end the header line, then write the separator row column by
column, then end that line. -/
def renderTableHeaderExit (aligns : List CellAlign) : List WEvt :=
  [WEvt.endLine, WEvt.bytes ['|']] ++
    (aligns.foldr
      (fun a acc => [WEvt.bytes [' '], WEvt.bytes (alignSepBytes a), WEvt.bytes ['|']] ++ acc)
      []) ++
    [WEvt.endLine]

/-- The separator-row text this claim is about, with the per-column entry
texts as parameters: pipe, then for each column a space, the entry, a
space and a pipe. -/
def sepRowText (cell : CellAlign → List Char) (aligns : List CellAlign) : List Char :=
  ['|'] ++ aligns.foldr (fun a acc => [' '] ++ cell a ++ [' ', '|'] ++ acc) []

/-- Per-column entries as claim C1 states them: `:---`, `---:`, `:---:`,
`---`. -/
def claimSepCell : CellAlign → List Char
  | .left => ":---".toList
  | .right => "---:".toList
  | .center => ":---:".toList
  | .other => "---".toList

/-- Per-column entries as the code actually writes them: `:-----`,
`-----:`, `:----:`, `-----`. -/
def actualSepCell : CellAlign → List Char
  | .left => ":-----".toList
  | .right => "-----:".toList
  | .center => ":----:".toList
  | .other => "-----".toList

/-! ## Headings (`renderHeading` lines 181-196, `renderATXHeading` lines
198-212, `renderSetextHeading` lines 214-234) -/

/-- The heading-style policy (`Config.HeadingStyle`).  Modelled from the
spec for the option set: heading style is one of atx, atx-surround,
setext, setext-fullwidth (the `Config` source file is not among the given
sources). -/
inductive HeadingStyle where
  | atx
  | atxSurround
  | setext
  | fullWidthSetext
deriving DecidableEq

/-- Modelled from the spec: `Config.IsSetext` — the underline-form styles
are setext and setext-fullwidth (the `Config` source file is not among the
given sources; renderer.go line 192 consults it). -/
def isSetextStyle : HeadingStyle → Bool
  | .setext => true
  | .fullWidthSetext => true
  | _ => false

/-- `renderATXHeading` (renderer.go lines 198-212) for a heading of the
given level; `hasChildren` is `node.HasChildren()`. -/
def renderATXHeading (style : HeadingStyle) (level : Nat) (hasChildren : Bool)
    (entering : Bool) : List WEvt :=
  if entering then
    [WEvt.bytes (List.replicate level '#')] ++
      (if hasChildren then [WEvt.bytes [' ']] else [])
  else
    if style = .atxSurround then
      [WEvt.bytes [' '], WEvt.bytes (List.replicate level '#')]
    else []

/-- `renderSetextHeading` (renderer.go lines 214-234); `lineLens` are the
byte widths of the node's source lines (`line.Len()`). -/
def renderSetextHeading (style : HeadingStyle) (level : Nat) (lineLens : List Nat)
    (entering : Bool) : List WEvt :=
  if entering then []
  else
    let underlineChar : List Char := [[], ['='], ['-']].getD level []
    let underlineWidth :=
      if style = .fullWidthSetext then
        lineLens.foldl (fun acc w => if w > acc then w else acc) 3
      else 3
    [WEvt.bytes ['\n'], WEvt.bytes ((List.replicate underlineWidth underlineChar).flatten)]

/-- `renderHeading` (renderer.go lines 181-196): empty or deep headings
are ATX, multiline headings are setext, otherwise the policy decides. -/
def renderHeading (style : HeadingStyle) (level : Nat) (hasChildren : Bool)
    (lineLens : List Nat) (entering : Bool) : List WEvt :=
  if !hasChildren || level > 2 then renderATXHeading style level hasChildren entering
  else if lineLens.length > 1 then renderSetextHeading style level lineLens entering
  else if isSetextStyle style then renderSetextHeading style level lineLens entering
  else renderATXHeading style level hasChildren entering

/-- The underline width claim C8 states for the full-width policy: the
longest source line width, with no minimum. -/
def claimFullWidth (lineLens : List Nat) : Nat := lineLens.foldr max 0

/-- The heading rendering as amended: identical decision tree, but the
full-width underline width is the longest source line width or 3,
whichever is larger. -/
def amendedHeadingEvents (style : HeadingStyle) (level : Nat) (hasChildren : Bool)
    (lineLens : List Nat) (entering : Bool) : List WEvt :=
  let atx : List WEvt :=
    if entering then
      [WEvt.bytes (List.replicate level '#')] ++
        (if hasChildren then [WEvt.bytes [' ']] else [])
    else if style = .atxSurround then
      [WEvt.bytes [' '], WEvt.bytes (List.replicate level '#')]
    else []
  let setext : List WEvt :=
    if entering then []
    else
      let ch : Char := if level = 1 then '=' else '-'
      let w := if style = .fullWidthSetext then max 3 (claimFullWidth lineLens) else 3
      [WEvt.bytes ['\n'], WEvt.bytes (List.replicate w ch)]
  if !hasChildren || level > 2 then atx
  else if lineLens.length > 1 then setext
  else if isSetextStyle style then setext
  else atx

/-! ## List items (`renderListItem`, renderer.go lines 326-347) -/

/-- One frame of the list stack (`listContext`): whether the list is
ordered, its marker byte, and the numbering cursor (`num`, initialised to
the list's start number by `renderList`). -/
structure ListCtx where
  isOrdered : Bool
  marker : Char
  num : Nat
deriving DecidableEq

/-- Modelled from the spec: the effective nested-list continuation indent
width — the configured width clamped to the minimum of 1 ("list
continuation indent width (default ≥1)"); the `Config` source holding
`NestedListLength` and `NestedListLengthMinimum` is not among the given
sources.  The renderer computes
`int(max(r.config.NestedListLength, NestedListLengthMinimum))`. -/
def effNestedListLength (cfg : Nat) : Nat := max cfg 1

/-- Entering a list item (renderer.go lines 327-341): build the item
marker text, bump the ordered cursor, push the marker as a first-line-only
line-prefix and push a space run of `indentLen * len(itemPrefix)` as the
continuation line-prefix from the second line on.  Returns the push events
and the updated top list frame. -/
def renderListItemEnter (cfg : Nat) (l : ListCtx) : List WEvt × ListCtx :=
  let itemPfx : List Char :=
    (if l.isOrdered then (Nat.repr l.num).toList else []) ++ [l.marker, ' ']
  let l' := if l.isOrdered then { l with num := l.num + 1 } else l
  let indentLen := effNestedListLength cfg
  let indent : List Char := List.replicate indentLen ' '
  ([WEvt.pushPfx itemPfx [0, 0],
    WEvt.pushPfx ((List.replicate itemPfx.length indent).flatten) [1]], l')

/-- Exiting a list item (renderer.go lines 342-345): pop both prefixes. -/
def renderListItemExit : List WEvt := [WEvt.popPfx, WEvt.popPfx]

/-- Modelled from the spec: which physical line index (0-based, within the
pushed scope) a line-prefix decorates, from its `PushPrefix` trailing
arguments — no arguments: every line; one argument `s`: lines `s` and
later; two arguments `s, e`: lines `s` through `e`. -/
def pfxAppliesTo (lineLimits : List Nat) (line : Nat) : Bool :=
  match lineLimits with
  | [] => true
  | [s] => s ≤ line
  | s :: e :: _ => s ≤ line && line ≤ e

/-! ## Handler registration and the first render
(`Register` lines 66-71, `Render` lines 74-111) -/

/-- The renderer state relevant to handler registration, over an abstract
handler type `H`.  `nodeRendererFuncsTmp` is the temporary Go map
(`none` models a nil map), `nodeRendererFuncs` the frozen dispatch slice
(`none` entries are unset kinds), `initDone` the `sync.Once` state. -/
structure GoRenderer (H : Type) where
  nodeRendererFuncsTmp : Option (List (Nat × H))
  maxKind : Nat
  nodeRendererFuncs : List (Option H)
  initDone : Bool

/-- Go map assignment `m[k] = v` on an association list with unique keys:
replace the entry if the key is present, append otherwise. -/
def mapInsert {H : Type} (m : List (Nat × H)) (k : Nat) (v : H) : List (Nat × H) :=
  if m.any (fun p => p.1 = k) then
    m.map (fun p => if p.1 = k then (k, v) else p)
  else m ++ [(k, v)]

/-- A renderer as produced by `NewRenderer` (renderer.go lines 21-32):
an empty temporary map and `maxKind = 20`. -/
def newRenderer {H : Type} : GoRenderer H := ⟨some [], 20, [], false⟩

/-- `Register` (renderer.go lines 66-71): store the handler in the
temporary map and widen `maxKind`.  Assigning into a nil map is a Go
runtime fault, modelled as `none`. -/
def registerFunc {H : Type} (r : GoRenderer H) (k : Nat) (f : H) :
    Option (GoRenderer H) :=
  match r.nodeRendererFuncsTmp with
  | none => none
  | some m =>
    some { r with
      nodeRendererFuncsTmp := some (mapInsert m k f),
      maxKind := if k > r.maxKind then k else r.maxKind }

/-- The dispatch-table construction inside `Render`'s `initSync.Do`
(renderer.go lines 77-106): a slice of `maxKind+1` entries filled with the
default handlers (given here as an association list, since their kinds are
goldmark's), then every temporary-map entry wrapped by `transform` and
stored at its kind. -/
def buildFuncs {H : Type} (defaults : List (Nat × H)) (wrap : H → H)
    (r : GoRenderer H) : List (Option H) :=
  let base := (List.range (r.maxKind + 1)).map
    (fun k => (defaults.find? (fun p => p.1 = k)).map (fun p => p.2))
  (r.nodeRendererFuncsTmp.getD []).foldl
    (fun tbl p => tbl.set p.1 (some (wrap p.2))) base

/-- `Render` (renderer.go lines 74-111), restricted to its effect on the
registration state: on the first call build the frozen dispatch table and
discard the temporary map (`r.nodeRendererFuncsTmp = nil`); later calls
leave all of it untouched. -/
def renderOnce {H : Type} (defaults : List (Nat × H)) (wrap : H → H)
    (r : GoRenderer H) : GoRenderer H :=
  if r.initDone then r
  else
    { r with
      nodeRendererFuncs := buildFuncs defaults wrap r,
      nodeRendererFuncsTmp := none,
      initDone := true }

/-! ## Properties of the code-span scan -/

theorem scanStep_count (total i : Nat) (st : ScanSt) (c : Char) :
    (scanStep total i st c).count = if c = bq then st.count + 1 else 0 := by
  simp only [scanStep]
  split_ifs with h1 h2 h3 h4 h5 h6 h7 h8 h9 <;> first | rfl | omega

theorem scanStep_runs (total i : Nat) (st : ScanSt) (c : Char) :
    (scanStep total i st c).backtickLengths =
      if c = bq then st.backtickLengths
      else if st.count > 0 then st.backtickLengths ++ [st.count]
      else st.backtickLengths := by
  simp only [scanStep]
  split_ifs <;> rfl

theorem scanStep_only (total i : Nat) (st : ScanSt) (c : Char) :
    (scanStep total i st c).isOnlySpace = (st.isOnlySpace && goIsSpace c) := by
  simp only [scanStep]
  split_ifs with h1 h2 h3 h4 h5 h6 <;> simp_all

theorem runs_loop (l : List Char) (total i : Nat) (st : ScanSt) :
    finalizeRuns (scanLoop total i st l) = st.backtickLengths ++ runsAux st.count l := by
  induction l generalizing i st with
  | nil =>
    by_cases h : st.count > 0 <;> simp [scanLoop, finalizeRuns, runsAux, h]
  | cons c rest ih =>
    rw [scanLoop, ih]
    rw [scanStep_runs, scanStep_count]
    by_cases hc : c = bq
    · simp [hc, runsAux]
    · by_cases hk : st.count > 0
      · simp only [hc, if_false, hk, if_true, runsAux]
        rw [List.append_assoc]
        simp [hc, hk]
      · have hz : st.count = 0 := by omega
        simp [runsAux, hc, hk, hz]

theorem scanContents_runs (s : List Char) :
    (scanContents s).backtickLengths = backtickRunLengths s := by
  have h := runs_loop s (utf8Len s) 0 scanInit
  have h2 : (scanContents s).backtickLengths
      = finalizeRuns (scanLoop (utf8Len s) 0 scanInit s) := by
    by_cases hc : (scanLoop (utf8Len s) 0 scanInit s).count > 0 <;>
      simp [scanContents, finalizeRuns, hc]
  rw [h2, h]
  rfl

theorem pickWidthLoop_eq_some (L : List Nat) (m : Nat) :
    ∀ fuel lo, lo ≤ m → m < lo + fuel → (∀ j, lo ≤ j → j < m → j ∈ L) → m ∉ L →
      pickWidthLoop L lo fuel = some m := by
  intro fuel
  induction fuel with
  | zero => intro lo h1 h2 _ _; omega
  | succ fuel ih =>
    intro lo h1 h2 h3 h4
    rw [pickWidthLoop]
    by_cases hlo : lo ∈ L
    · have hne : lo ≠ m := fun he => h4 (he ▸ hlo)
      have hc : (L.contains lo = true) := List.elem_eq_true_of_mem hlo
      rw [if_pos hc]
      exact ih (lo + 1) (by omega) (by omega) (fun j hj1 hj2 => h3 j (by omega) hj2) h4
    · have heq : lo = m := by
        by_contra hne
        exact hlo (h3 lo le_rfl (by omega))
      have hc : ¬ (L.contains lo = true) := fun hc => hlo (List.mem_of_elem_eq_true hc)
      rw [if_neg hc, heq]

/-- Claim C2 (amended): the delimiter width equals the smallest positive
integer absent from the content's maximal backtick-run lengths whenever
that integer is at most the content's byte length (which fails only for
the empty content and the lone backtick); the opening and closing
delimiters are that many backticks. -/
theorem c2_amended (contents : List Char) (ctx : CodeSpanCtx) (m : Nat)
    (h1 : isLeastAbsent (backtickRunLengths contents) m)
    (h2 : m ≤ utf8Len contents) :
    (renderCodeSpanEnter ctx contents).1.backtickLength = m ∧
    (renderCodeSpanEnter ctx contents).2.head? =
      some (WEvt.bytes (List.replicate m bq)) ∧
    (renderCodeSpanExit (renderCodeSpanEnter ctx contents).1).getLast? =
      some (WEvt.bytes (List.replicate m bq)) := by
  obtain ⟨hm0, hmnot, hmleast⟩ := h1
  have hpick : pickWidthLoop (scanContents contents).backtickLengths 1 (utf8Len contents)
      = some m := by
    rw [scanContents_runs]
    exact pickWidthLoop_eq_some _ m (utf8Len contents) 1 hm0 (by omega)
      (fun j hj1 hj2 => hmleast j hj2 (by omega)) hmnot
  simp only [renderCodeSpanEnter, hpick, Option.getD_some]
  split_ifs <;>
    exact ⟨rfl, rfl, by rw [renderCodeSpanExit]; exact List.getLast?_concat _⟩

/-- Claim C2 (witness): content with backtick runs of lengths 1 and 2 gets
delimiter width 3, the smallest positive integer absent from the run-length
set. -/
theorem c2_amended_witness :
    isLeastAbsent (backtickRunLengths ("`a``".toList)) 3 ∧
    3 ≤ utf8Len ("`a``".toList) ∧
    (renderCodeSpanEnter csInit ("`a``".toList)).1.backtickLength = 3 :=
  ⟨by decide, by decide, (c2_amended ("`a``".toList) csInit 3 (by decide) (by decide)).1⟩

/-- Claim C2 (counterexample): for content consisting of a lone backtick
the smallest positive integer absent from the run-length set is 2, but the
selection loop (bounded by the one-byte content length) never fires and
the renderer keeps the stored width — 0 in a fresh render — so the claim's
equality fails. -/
theorem c2_counterexample :
    isLeastAbsent (backtickRunLengths [bq]) 2 ∧
    (renderCodeSpanEnter csInit [bq]).1.backtickLength = 0 ∧
    (renderCodeSpanEnter csInit [bq]).1.backtickLength ≠ 2 := by decide

theorem utf8Len_cons (c : Char) (l : List Char) :
    utf8Len (c :: l) = c.utf8Size + utf8Len l := by
  simp [utf8Len]

theorem utf8Len_pos (l : List Char) (h : l ≠ []) : 1 ≤ utf8Len l := by
  match l with
  | c :: rest =>
    rw [utf8Len_cons]
    have := c.utf8Size_pos
    omega

theorem scanStep_begins (total : Nat) (st : ScanSt) (c : Char) :
    (scanStep total 0 st c).beginsWithSpace = goIsSpace c ∧
    (scanStep total 0 st c).beginsWithBackTick = decide (c = bq) := by
  simp only [scanStep]
  split_ifs <;> first | exact ⟨rfl, rfl⟩ | omega

theorem scanStep_pres_begins (total i : Nat) (st : ScanSt) (c : Char) (h : i ≠ 0) :
    (scanStep total i st c).beginsWithSpace = st.beginsWithSpace ∧
    (scanStep total i st c).beginsWithBackTick = st.beginsWithBackTick := by
  simp only [scanStep]
  split_ifs <;> first | exact ⟨rfl, rfl⟩ | omega

theorem scanStep_pres_ends (total i : Nat) (st : ScanSt) (c : Char)
    (h : i = 0 ∨ i ≠ total - 1) :
    (scanStep total i st c).endsWithSpace = st.endsWithSpace ∧
    (scanStep total i st c).endsWithBackTick = st.endsWithBackTick := by
  simp only [scanStep]
  split_ifs <;> first | exact ⟨rfl, rfl⟩ | omega

theorem scanStep_hit_ends (total i : Nat) (st : ScanSt) (c : Char)
    (h0 : i ≠ 0) (h1 : i = total - 1) :
    (scanStep total i st c).endsWithSpace = goIsSpace c ∧
    (scanStep total i st c).endsWithBackTick = decide (c = bq) := by
  simp only [scanStep]
  split_ifs <;> first | exact ⟨rfl, rfl⟩ | omega

theorem scanLoop_pres_begins (l : List Char) :
    ∀ (total i : Nat) (st : ScanSt), i ≠ 0 →
      (scanLoop total i st l).beginsWithSpace = st.beginsWithSpace ∧
      (scanLoop total i st l).beginsWithBackTick = st.beginsWithBackTick := by
  induction l with
  | nil => intro total i st _; exact ⟨rfl, rfl⟩
  | cons c rest ih =>
    intro total i st hi
    rw [scanLoop]
    have hnz : i + c.utf8Size ≠ 0 := by
      have := c.utf8Size_pos
      omega
    obtain ⟨ha, hb⟩ := ih total (i + c.utf8Size) (scanStep total i st c) hnz
    obtain ⟨hc, hd⟩ := scanStep_pres_begins total i st c hi
    exact ⟨ha.trans hc, hb.trans hd⟩

theorem scanLoop_only (l : List Char) :
    ∀ (total i : Nat) (st : ScanSt),
      (scanLoop total i st l).isOnlySpace = (st.isOnlySpace && l.all goIsSpace) := by
  induction l with
  | nil => intro total i st; simp [scanLoop]
  | cons c rest ih =>
    intro total i st
    rw [scanLoop, ih, scanStep_only, List.all_cons, Bool.and_assoc]

theorem scanLoop_ends (l : List Char) :
    ∀ (total i : Nat) (st : ScanSt), i ≠ 0 → total = i + utf8Len l →
      (scanLoop total i st l).endsWithSpace =
        (match l.getLast? with
         | some d => if d.utf8Size = 1 then goIsSpace d else st.endsWithSpace
         | none => st.endsWithSpace) ∧
      (scanLoop total i st l).endsWithBackTick =
        (match l.getLast? with
         | some d => if d.utf8Size = 1 then decide (d = bq) else st.endsWithBackTick
         | none => st.endsWithBackTick) := by
  induction l with
  | nil => intro total i st _ _; exact ⟨rfl, rfl⟩
  | cons d rest ih =>
    intro total i st hi htot
    match rest with
    | [] =>
      have hsz := d.utf8Size_pos
      have hz : utf8Len ([] : List Char) = 0 := rfl
      rw [utf8Len_cons, hz] at htot
      rw [scanLoop, scanLoop]
      by_cases h1 : d.utf8Size = 1
      · have hit : i = total - 1 := by omega
        obtain ⟨ha, hb⟩ := scanStep_hit_ends total i st d hi hit
        simp [List.getLast?, ha, hb, h1]
      · have miss : i ≠ total - 1 := by omega
        obtain ⟨ha, hb⟩ := scanStep_pres_ends total i st d (Or.inr miss)
        simp [List.getLast?, ha, hb, h1]
    | e :: rest' =>
      have hsz := d.utf8Size_pos
      have hrest : 1 ≤ utf8Len (e :: rest') := utf8Len_pos _ (by simp)
      rw [utf8Len_cons] at htot
      rw [scanLoop]
      have hnz : i + d.utf8Size ≠ 0 := by omega
      have htot' : total = (i + d.utf8Size) + utf8Len (e :: rest') := by omega
      obtain ⟨ha, hb⟩ := ih total (i + d.utf8Size) (scanStep total i st d) hnz htot'
      have miss : i ≠ total - 1 := by omega
      obtain ⟨hc, hd⟩ := scanStep_pres_ends total i st d (Or.inr miss)
      rw [List.getLast?_cons_cons] at *
      constructor
      · rw [ha]
        cases hg : (e :: rest').getLast? <;> simp [hc]
      · rw [hb]
        cases hg : (e :: rest').getLast? <;> simp [hd]

theorem scanContents_flags (s : List Char) :
    (scanContents s).beginsWithSpace = (scanLoop (utf8Len s) 0 scanInit s).beginsWithSpace ∧
    (scanContents s).endsWithSpace = (scanLoop (utf8Len s) 0 scanInit s).endsWithSpace ∧
    (scanContents s).beginsWithBackTick
      = (scanLoop (utf8Len s) 0 scanInit s).beginsWithBackTick ∧
    (scanContents s).endsWithBackTick
      = (scanLoop (utf8Len s) 0 scanInit s).endsWithBackTick ∧
    (scanContents s).isOnlySpace = (scanLoop (utf8Len s) 0 scanInit s).isOnlySpace := by
  by_cases hc : (scanLoop (utf8Len s) 0 scanInit s).count > 0 <;>
    simp [scanContents, hc]

theorem padCond_eq (s : List Char)
    (hlast : s.length ≤ 1 ∨ ∃ d, s.getLast? = some d ∧ d.utf8Size = 1) :
    ((scanContents s).beginsWithSpace && (scanContents s).endsWithSpace
        && !(scanContents s).isOnlySpace
      || (scanContents s).beginsWithBackTick || (scanContents s).endsWithBackTick)
      = claimPadCond s := by
  obtain ⟨f1, f2, f3, f4, f5⟩ := scanContents_flags s
  rw [f1, f2, f3, f4, f5]
  match s with
  | [] => decide
  | [c] =>
    have hsz := c.utf8Size_pos
    rw [scanLoop, scanLoop]
    obtain ⟨b1, b2⟩ := scanStep_begins (utf8Len [c]) scanInit c
    obtain ⟨e1, e2⟩ := scanStep_pres_ends (utf8Len [c]) 0 scanInit c (Or.inl rfl)
    rw [b1, b2, e1, e2, scanStep_only]
    cases hg : goIsSpace c <;> cases hb : decide (c = bq) <;>
      simp_all [claimPadCond, listBeginsWith, listEndsWith, scanInit]
  | c :: e :: rest =>
    rcases hlast with h | ⟨d, hd, hd1⟩
    · simp at h
    have hnz : c.utf8Size ≠ 0 := by
      have := c.utf8Size_pos
      omega
    rw [utf8Len_cons, scanLoop]
    simp only [Nat.zero_add]
    have hpe := scanStep_pres_ends (c.utf8Size + utf8Len (e :: rest)) 0 scanInit c
      (Or.inl rfl)
    have hend := scanLoop_ends (e :: rest) (c.utf8Size + utf8Len (e :: rest)) c.utf8Size
      (scanStep (c.utf8Size + utf8Len (e :: rest)) 0 scanInit c) hnz rfl
    have hbeg := scanLoop_pres_begins (e :: rest) (c.utf8Size + utf8Len (e :: rest))
      c.utf8Size (scanStep (c.utf8Size + utf8Len (e :: rest)) 0 scanInit c) hnz
    have hstep := scanStep_begins (c.utf8Size + utf8Len (e :: rest)) scanInit c
    rw [List.getLast?_cons_cons] at hd
    rw [hd] at hend
    simp only [hd1, if_pos] at hend
    rw [hbeg.1, hbeg.2, hstep.1, hstep.2, hend.1, hend.2, scanLoop_only, scanStep_only]
    have hpe1 : (scanStep (c.utf8Size + utf8Len (e :: rest)) 0 scanInit c).endsWithSpace
        = false := hpe.1
    simp [claimPadCond, listBeginsWith, listEndsWith, List.getLast?_cons_cons, hd,
      scanInit, List.all_cons]

/-- Claim C9 (amended): for a code span rendered with cleared code-span
state and whose content's final character occupies a single UTF-8 byte
(vacuous for contents of at most one character), one space is emitted just
inside each delimiter exactly when the content begins and ends with
whitespace without being entirely whitespace, or begins or ends with a
backtick; the pad flag itself, left set by an earlier span of the same
render, also forces padding (see claim C6). -/
theorem c9_amended (contents : List Char) (ctx : CodeSpanCtx)
    (hctx : ctx.padSpace = false)
    (hlast : contents.length ≤ 1 ∨ ∃ d, contents.getLast? = some d ∧ d.utf8Size = 1) :
    (renderCodeSpanEnter ctx contents).1.padSpace = claimPadCond contents ∧
    (renderCodeSpanEnter ctx contents).2 =
      [WEvt.bytes (List.replicate (renderCodeSpanEnter ctx contents).1.backtickLength bq)]
        ++ (if claimPadCond contents then [WEvt.bytes [' ']] else []) ∧
    renderCodeSpanExit (renderCodeSpanEnter ctx contents).1 =
      (if claimPadCond contents then [WEvt.bytes [' ']] else [])
        ++ [WEvt.bytes (List.replicate (renderCodeSpanEnter ctx contents).1.backtickLength bq)] := by
  have hcond := padCond_eq contents hlast
  simp only [renderCodeSpanEnter, hcond]
  cases hcp : claimPadCond contents <;>
    simp [hcp, hctx, renderCodeSpanExit]

/-- Claim C9 (witness): whitespace-padded, not-all-whitespace content is
padded; all-whitespace content is not. -/
theorem c9_amended_witness :
    csInit.padSpace = false ∧
    claimPadCond ("  text  ".toList) = true ∧
    (renderCodeSpanEnter csInit ("  text  ".toList)).1.padSpace = true ∧
    claimPadCond ("   ".toList) = false ∧
    (renderCodeSpanEnter csInit ("   ".toList)).1.padSpace = false := by
  refine ⟨rfl, by decide, ?_, by decide, ?_⟩
  · rw [(c9_amended ("  text  ".toList) csInit rfl
      (Or.inr ⟨' ', by decide, by decide⟩)).1]
    decide
  · rw [(c9_amended ("   ".toList) csInit rfl
      (Or.inr ⟨' ', by decide, by decide⟩)).1]
    decide

/-- Claim C9 (counterexample): content consisting of a space, `x` and a
no-break space begins and ends with whitespace and is not entirely
whitespace, so the claim requires padding — but the scan detects the
final character only at byte offset `len-1`, which a two-byte final rune
never occupies, so the renderer does not pad. -/
theorem c9_counterexample :
    claimPadCond [' ', 'x', '\u00A0'] = true ∧
    (renderCodeSpanEnter csInit [' ', 'x', '\u00A0']).1.padSpace = false ∧
    (renderCodeSpanEnter csInit [' ', 'x', '\u00A0']).2 =
      [WEvt.bytes [bq]] := by decide

/-- Claim C6 (the code-bug evaluation): the pad decision of a code span is
never cleared on exit — after the padded span `" x "`, the unpadded
content `"abc"` exits with a stray pad space, unlike the same span
rendered from a fresh context, so the state outlives its node and a
span's output depends on previously rendered spans. -/
theorem c6_code_bug :
    renderCodeSpans csInit [" x ".toList, "abc".toList] =
      [[WEvt.bytes [bq], WEvt.bytes [' '], WEvt.bytes (" x ".toList),
        WEvt.bytes [' '], WEvt.bytes [bq]],
       [WEvt.bytes [bq], WEvt.bytes ("abc".toList),
        WEvt.bytes [' '], WEvt.bytes [bq]]] ∧
    renderCodeSpans csInit ["abc".toList] =
      [[WEvt.bytes [bq], WEvt.bytes ("abc".toList), WEvt.bytes [bq]]] := by decide

/-! ## Properties of text-run coalescing -/

theorem renderTextNode_mid (hook : Option (List Char → Option (List Char))) (skip : Bool)
    (B : List Char) (P : List Bool) (W : List WEvt) (K : List (List Char))
    (c : List Char) (b : Bool) :
    renderTextNode hook skip ⟨B, true, P, W, K⟩ c b true =
      ⟨B ++ breaksOf P ++ c, true, if b then [true] else [], W, K⟩ := by
  by_cases hP : P.length > 0
  · by_cases hb : b <;> simp [renderTextNode, hP, hb, breaksOf]
  · have hP0 : P = [] := by
      cases P
      · rfl
      · simp at hP
    subst hP0
    by_cases hb : b <;> simp [renderTextNode, hb, breaksOf]

theorem renderTextNode_close_calls (h : List Char → Option (List Char))
    (B : List Char) (P : List Bool) (W : List WEvt) (K : List (List Char))
    (c : List Char) (b : Bool) :
    (renderTextNode (some h) false ⟨B, true, P, W, K⟩ c b false).hookCalls
      = K ++ [goTrimSpace (B ++ breaksOf P ++ c)] := by
  by_cases hP : P.length > 0
  · by_cases hb : b <;>
      (simp [renderTextNode, hP, hb, breaksOf]; split <;> split <;> simp_all)
  · have hP0 : P = [] := by
      cases P
      · rfl
      · simp at hP
    subst hP0
    by_cases hb : b <;>
      (simp [renderTextNode, hb, breaksOf]; split <;> split <;> simp_all)

theorem renderTextNode_first_mid (hook : Option (List Char → Option (List Char)))
    (skip : Bool) (c : List Char) (b : Bool) :
    renderTextNode hook skip textInit c b true =
      ⟨c, true, if b then [true] else [], [], []⟩ := by
  by_cases hb : b <;> simp [renderTextNode, textInit, hb]

theorem renderTextNode_first_close_calls (h : List Char → Option (List Char))
    (c : List Char) (b : Bool) :
    (renderTextNode (some h) false textInit c b false).hookCalls = [goTrimSpace c] := by
  by_cases hb : b <;>
    (simp [renderTextNode, textInit, hb]; split <;> split <;> simp_all)

theorem renderTextRun_calls (h : List Char → Option (List Char)) :
    ∀ (run : List (List Char × Bool)) (B : List Char) (P : List Bool)
      (W : List WEvt) (K : List (List Char)), run ≠ [] →
      (renderTextRun (some h) false ⟨B, true, P, W, K⟩ run).hookCalls
        = K ++ [goTrimSpace (B ++ breaksOf P ++ coalesceRun run)] := by
  intro run
  induction run with
  | nil => intro B P W K hne; exact absurd rfl hne
  | cons cb rest ih =>
    obtain ⟨c, b⟩ := cb
    intro B P W K _
    cases rest with
    | nil =>
      simp only [renderTextRun, List.isEmpty_nil, Bool.not_true]
      rw [renderTextNode_close_calls]
      simp [coalesceRun]
    | cons e rest' =>
      rw [renderTextRun]
      simp only [List.isEmpty_cons, Bool.not_false]
      rw [renderTextNode_mid]
      rw [ih (B ++ breaksOf P ++ c) (if b then [true] else []) W K (by simp)]
      cases hb : b <;> simp [hb, coalesceRun, breaksOf, List.append_assoc]

/-- Claim C3: with a Transform hook configured and the skip-translation
flag unset, a maximal run of sibling text nodes triggers exactly one hook
invocation, whose key is the whitespace-trimmed concatenation of the
nodes' contents with each recorded soft break between nodes materialised
as one newline byte. -/
theorem c3_text_run (h : List Char → Option (List Char))
    (run : List (List Char × Bool)) (hne : run ≠ []) :
    (renderTextRun (some h) false textInit run).hookCalls
      = [goTrimSpace (coalesceRun run)] := by
  cases run with
  | nil => exact absurd rfl hne
  | cons cb rest =>
    obtain ⟨c, b⟩ := cb
    cases rest with
    | nil =>
      simp only [renderTextRun, List.isEmpty_nil, Bool.not_true]
      rw [renderTextNode_first_close_calls]
      simp [coalesceRun]
    | cons e rest' =>
      rw [renderTextRun]
      simp only [List.isEmpty_cons, Bool.not_false]
      rw [renderTextNode_first_mid]
      rw [renderTextRun_calls h (e :: rest') c (if b then [true] else []) [] [] (by simp)]
      cases hb : b <;> simp [hb, coalesceRun, breaksOf, List.append_assoc]

/-- Claim C3 (witness): the adjacent text nodes `"Hello"` (with a soft
break) and `"world"` produce the single lookup key `"Hello\nworld"`. -/
theorem c3_text_run_witness :
    ([("Hello".toList, true), ("world".toList, false)] : List (List Char × Bool)) ≠ [] ∧
    (renderTextRun
        (some fun s => if s = "Hello\nworld".toList then some ("X".toList) else none)
        false textInit [("Hello".toList, true), ("world".toList, false)]).hookCalls
      = [goTrimSpace (coalesceRun [("Hello".toList, true), ("world".toList, false)])] ∧
    goTrimSpace (coalesceRun [("Hello".toList, true), ("world".toList, false)])
      = "Hello\nworld".toList :=
  ⟨by decide,
   c3_text_run (fun s => if s = "Hello\nworld".toList then some ("X".toList) else none)
     _ (by decide),
   by decide⟩

/-! ## Raw-markup block, link/image and table claims -/

/-- Claim C4 (the code-bug evaluation): for an HTML block with line
`"<script>\n"` and closure line `"</script>\n"`, and a hook that replaces
the full concatenated fragment with `"X"`, the renderer emits the
replacement on enter — and then the exit phase emits the closure line
again, so the original closure line is written in addition to the
replacement. -/
theorem c4_code_bug :
    renderHTMLBlockNode
        (some fun s =>
          if s = "<script>\n</script>\n".toList then some ("X".toList) else none)
        ["<script>\n".toList] (some ("</script>\n".toList)) =
      [WEvt.bytes ("X".toList), WEvt.writeLine ("</script>\n".toList)] ∧
    [WEvt.bytes ("X".toList), WEvt.writeLine ("</script>\n".toList)] ≠
      [WEvt.bytes ("X".toList)] := by decide

/-- Claim C5 (counterexample): on exiting a link whose title is `"T"`, the
title bytes are written while the skip-translation flag is still true —
the flag is never toggled off around a link title. -/
theorem c5_counterexample :
    (renderLinkExit ("u".toList) ("T".toList) ⟨false, []⟩).writes =
      [("](".toList, true), ("u".toList, true), (" \"".toList, true),
       ("T".toList, true), ("\"".toList, true), (")".toList, true)] ∧
    ("T".toList, false) ∉ (renderLinkExit ("u".toList) ("T".toList) ⟨false, []⟩).writes := by
  decide

/-- Claim C5 (amended): the flag is true around the destination and the
enclosing syntax for both links and images and is false again after the
node; but only the image handler toggles it off around the title bytes —
a link title is written with the flag still true. -/
theorem c5_amended (dest title : List Char) (s0 : Bool) (h : title ≠ []) :
    (renderLinkExit dest title ⟨s0, []⟩).writes =
      [("](".toList, true), (dest, true), (" \"".toList, true),
       (title, true), ("\"".toList, true), (")".toList, true)] ∧
    (renderLinkExit dest title ⟨s0, []⟩).skipTranslation = false ∧
    (renderImageExit dest title ⟨s0, []⟩).writes =
      [("](".toList, true), (dest, true), (" \"".toList, true),
       (title, false), ("\"".toList, true), (")".toList, true)] ∧
    (renderImageExit dest title ⟨s0, []⟩).skipTranslation = false := by
  have hl : title.length > 0 := by
    cases title
    · exact absurd rfl h
    · simp
  simp [renderLinkExit, renderImageExit, stWrite, stSetSkip, hl]

/-- Claim C5 (witness): concrete destination `"u"` and title `"T"`. -/
theorem c5_amended_witness :
    ("T".toList : List Char) ≠ [] ∧
    (renderImageExit ("u".toList) ("T".toList) ⟨false, []⟩).writes =
      [("](".toList, true), ("u".toList, true), (" \"".toList, true),
       ("T".toList, false), ("\"".toList, true), (")".toList, true)] :=
  ⟨by decide, (c5_amended ("u".toList) ("T".toList) false (by decide)).2.2.1⟩

theorem payloadConcat_append (a b : List WEvt) :
    payloadConcat (a ++ b) = payloadConcat a ++ payloadConcat b := by
  induction a with
  | nil => simp [payloadConcat]
  | cons e rest ih =>
    simp only [List.cons_append, payloadConcat, List.foldr_cons] at *
    rw [ih, List.append_assoc]

theorem alignSepBytes_eq (a : CellAlign) :
    alignSepBytes a = actualSepCell a ++ [' '] := by
  cases a <;> decide

/-- Claim C1 (amended): exiting the header row ends the header line and
emits a separator row whose per-column entry is `:-----` for left
alignment, `-----:` for right, `:----:` for center and `-----` for
unspecified; in particular alignments {left, right} produce the row
`| :----- | -----: |`. -/
theorem c1_amended :
    (∀ aligns : List CellAlign,
      payloadConcat (renderTableHeaderExit aligns)
        = '\n' :: (sepRowText actualSepCell aligns ++ ['\n'])) ∧
    sepRowText actualSepCell [CellAlign.left, CellAlign.right]
      = "| :----- | -----: |".toList := by
  constructor
  · intro aligns
    rw [renderTableHeaderExit, payloadConcat_append, payloadConcat_append]
    have hmid : payloadConcat
        (aligns.foldr
          (fun a acc =>
            [WEvt.bytes [' '], WEvt.bytes (alignSepBytes a), WEvt.bytes ['|']] ++ acc)
          [])
        = aligns.foldr (fun a acc => [' '] ++ actualSepCell a ++ [' ', '|'] ++ acc) [] := by
      induction aligns with
      | nil => rfl
      | cons a rest ih =>
        simp only [List.cons_append, List.nil_append] at ih ⊢
        simp only [payloadConcat] at ih ⊢
        simp only [List.foldr_cons]
        rw [ih, alignSepBytes_eq]
        simp [List.append_assoc]
    rw [hmid]
    simp [payloadConcat, sepRowText]
  · decide

/-- Claim C1 (counterexample): with alignments {left, right} the rendered
separator row is `| :----- | -----: |`, not the claimed `| :--- | ---: |`
built from the entries `:---` and `---:`. -/
theorem c1_counterexample :
    payloadConcat (renderTableHeaderExit [CellAlign.left, CellAlign.right])
      = "\n| :----- | -----: |\n".toList ∧
    payloadConcat (renderTableHeaderExit [CellAlign.left, CellAlign.right])
      ≠ '\n' :: (sepRowText claimSepCell [CellAlign.left, CellAlign.right] ++ ['\n']) ∧
    sepRowText claimSepCell [CellAlign.left, CellAlign.right]
      = "| :--- | ---: |".toList := by decide

/-! ## List-item prefixes -/

theorem flattenReplicateSpaces (n k : Nat) :
    (List.replicate n (List.replicate k ' ')).flatten = List.replicate (k * n) ' ' := by
  induction n with
  | zero => simp
  | succ n ih =>
    rw [List.replicate_succ, List.flatten_cons, ih, Nat.mul_succ, Nat.add_comm,
      List.replicate_add]

/-- Claim C7 (amended): entering a list item pushes exactly two
line-prefixes — the marker prefix (decimal ordinal, then marker byte, then
a space for an ordered list; marker byte and space otherwise) limited to
the item's first line, and a continuation prefix of spaces applying from
the item's second line on whose width is the effective continuation
indent width times the marker prefix's width (so it equals the marker
prefix's width exactly when that indent width is 1, its default and
minimum); the ordered-numbering cursor advances by one. -/
theorem c7_amended :
    (∀ (cfg : Nat) (l : ListCtx) (line : Nat),
      (renderListItemEnter cfg l).1 =
        [WEvt.pushPfx
            ((if l.isOrdered then (Nat.repr l.num).toList else []) ++ [l.marker, ' '])
            [0, 0],
         WEvt.pushPfx
            (List.replicate
              (effNestedListLength cfg *
                ((if l.isOrdered then (Nat.repr l.num).toList else [])
                  ++ [l.marker, ' ']).length)
              ' ')
            [1]] ∧
      (renderListItemEnter cfg l).2.num = (if l.isOrdered then l.num + 1 else l.num) ∧
      pfxAppliesTo [0, 0] line = (line == 0) ∧
      pfxAppliesTo [1] line = decide (1 ≤ line) ∧
      renderListItemExit = [WEvt.popPfx, WEvt.popPfx]) ∧
    (renderListItemEnter 1 ⟨true, '.', 5⟩).1 =
      [WEvt.pushPfx ("5. ".toList) [0, 0], WEvt.pushPfx ("   ".toList) [1]] := by
  constructor
  · intro cfg l line
    refine ⟨?_, ?_, ?_, ?_, rfl⟩
    · simp only [renderListItemEnter, flattenReplicateSpaces]
    · by_cases ho : l.isOrdered <;> simp [renderListItemEnter, ho]
    · cases line <;> simp [pfxAppliesTo]
    · rfl
  · decide

/-- Claim C7 (counterexample): with a configured continuation indent width
of 2 and an unordered item with marker `-`, the continuation prefix is
four spaces while the marker prefix `"- "` is two bytes wide — the
continuation prefix's width is not the marker prefix's width. -/
theorem c7_counterexample :
    (renderListItemEnter 2 ⟨false, '-', 0⟩).1 =
      [WEvt.pushPfx ("- ".toList) [0, 0], WEvt.pushPfx (List.replicate 4 ' ') [1]] ∧
    (List.replicate 4 ' ').length ≠ ("- ".toList).length := by decide

/-! ## Headings -/

theorem foldl_ifmax (l : List Nat) :
    ∀ a : Nat, l.foldl (fun acc w => if w > acc then w else acc) a
      = max a (l.foldr max 0) := by
  induction l with
  | nil => intro a; simp
  | cons w rest ih =>
    intro a
    simp only [List.foldl_cons, List.foldr_cons]
    rw [ih]
    have h1 : (if w > a then w else a) = max a w := by split <;> omega
    rw [h1]
    omega

theorem flattenReplicateSingleton (w : Nat) (ch : Char) :
    (List.replicate w [ch]).flatten = List.replicate w ch := by
  induction w with
  | zero => simp
  | succ w ih => rw [List.replicate_succ, List.flatten_cons, ih, List.replicate_succ]; rfl

/-- Claim C8 (amended): a heading with no content or level above 2 is
rendered in ATX form; otherwise a multi-line heading is rendered in
setext form; otherwise the configured policy decides.  The setext
underline uses `=` for level 1 and `-` for level 2; its width is 3,
except under the full-width policy, where it is the longest source line
width or 3, whichever is larger.  Level-1 examples: content span "Hi"
gives `# Hi` decoration under the default policy and a width-3 `=`
underline under the setext policy; a 10-byte line under the full-width
policy gets a width-10 underline. -/
theorem c8_amended :
    (∀ (style : HeadingStyle) (level : Nat) (hasChildren : Bool)
       (lineLens : List Nat) (entering : Bool), 1 ≤ level →
       renderHeading style level hasChildren lineLens entering
         = amendedHeadingEvents style level hasChildren lineLens entering) ∧
    renderHeading HeadingStyle.atx 1 true [2] true
      = [WEvt.bytes ['#'], WEvt.bytes [' ']] ∧
    renderHeading HeadingStyle.setext 1 true [2] false
      = [WEvt.bytes ['\n'], WEvt.bytes ("===".toList)] ∧
    renderHeading HeadingStyle.fullWidthSetext 1 true [10] false
      = [WEvt.bytes ['\n'], WEvt.bytes (List.replicate 10 '=')] := by
  refine ⟨?_, by decide, by decide, by decide⟩
  intro style level hasChildren lineLens entering hlv
  have hset : level = 1 ∨ level = 2 →
      renderSetextHeading style level lineLens entering
        = (if entering then [] else
            [WEvt.bytes ['\n'],
             WEvt.bytes (List.replicate
               (if style = HeadingStyle.fullWidthSetext
                then max 3 (claimFullWidth lineLens) else 3)
               (if level = 1 then '=' else '-'))]) := by
    intro hl
    simp only [renderSetextHeading]
    by_cases he : entering
    · simp [he]
    · rcases hl with h1 | h2
      · subst h1
        by_cases hs : style = HeadingStyle.fullWidthSetext <;>
          simp [he, hs, foldl_ifmax, claimFullWidth, flattenReplicateSingleton,
            List.getD]
      · subst h2
        by_cases hs : style = HeadingStyle.fullWidthSetext <;>
          simp [he, hs, foldl_ifmax, claimFullWidth, flattenReplicateSingleton,
            List.getD]
  simp only [renderHeading, amendedHeadingEvents]
  by_cases h1 : (!hasChildren || decide (level > 2)) = true
  · simp [h1, renderATXHeading]
  · have hlev : level = 1 ∨ level = 2 := by
      simp only [Bool.or_eq_true, decide_eq_true_eq, Bool.not_eq_true'] at h1
      push_neg at h1
      omega
    by_cases h2 : lineLens.length > 1
    · simp [h1, h2, hset hlev]
    · by_cases h3 : isSetextStyle style = true
      · simp [h1, h2, h3, hset hlev]
      · simp [h1, h2, h3, renderATXHeading]

/-- Claim C8 (witness): the general statement applied at a concrete
single-line level-1 heading under the full-width policy. -/
theorem c8_amended_witness :
    (1 : Nat) ≤ 1 ∧
    renderHeading HeadingStyle.fullWidthSetext 1 true [10] false
      = amendedHeadingEvents HeadingStyle.fullWidthSetext 1 true [10] false :=
  ⟨by decide, c8_amended.1 HeadingStyle.fullWidthSetext 1 true [10] false (by decide)⟩

/-- Claim C8 (counterexample): under the full-width policy a multi-line
level-1 heading whose longest source line is 2 bytes wide gets a width-3
underline, not an underline of the longest source line width. -/
theorem c8_counterexample :
    renderHeading HeadingStyle.fullWidthSetext 1 true [2, 1] false
      = [WEvt.bytes ['\n'], WEvt.bytes ("===".toList)] ∧
    claimFullWidth [2, 1] = 2 ∧
    ("===".toList).length ≠ 2 := by decide

/-! ## Registration lifecycle -/

theorem foldl_set_preserve {H : Type} (wrap : H → H) :
    ∀ (entries : List (Nat × H)) (tbl : List (Option H)) (k : Nat),
      (∀ p ∈ entries, p.1 ≠ k) →
      (entries.foldl (fun t p => t.set p.1 (some (wrap p.2))) tbl)[k]? = tbl[k]? := by
  intro entries
  induction entries with
  | nil => intro tbl k _; rfl
  | cons p rest ih =>
    intro tbl k hne
    rw [List.foldl_cons]
    rw [ih (tbl.set p.1 (some (wrap p.2))) k (fun q hq => hne q (List.mem_cons_of_mem p hq))]
    exact List.getElem?_set_ne (hne p (List.mem_cons_self p rest))

theorem foldl_set_lookup {H : Type} (wrap : H → H) :
    ∀ (entries : List (Nat × H)) (tbl : List (Option H)) (k : Nat) (f : H),
      (k, f) ∈ entries → (entries.map Prod.fst).Nodup → k < tbl.length →
      (entries.foldl (fun t p => t.set p.1 (some (wrap p.2))) tbl)[k]?
        = some (some (wrap f)) := by
  intro entries
  induction entries with
  | nil => intro tbl k f hmem _ _; simp at hmem
  | cons p rest ih =>
    intro tbl k f hmem hnd hlen
    rw [List.foldl_cons]
    rcases List.mem_cons.mp hmem with heq | hrest
    · subst heq
      have hnk : ∀ q ∈ rest, q.1 ≠ k := by
        intro q hq hqk
        have : k ∈ rest.map Prod.fst := hqk ▸ List.mem_map_of_mem Prod.fst hq
        exact (List.nodup_cons.mp hnd).1 this
      rw [foldl_set_preserve wrap rest _ k hnk]
      exact List.getElem?_set_self hlen
    · exact ih (tbl.set p.1 (some (wrap p.2))) k f hrest
        (List.nodup_cons.mp hnd).2 (by simpa using hlen)

theorem mapInsert_mem {H : Type} (m : List (Nat × H)) (k : Nat) (v : H) :
    (k, v) ∈ mapInsert m k v := by
  rw [mapInsert]
  split
  · next hany =>
    obtain ⟨p, hp, hpk⟩ := List.any_eq_true.mp hany
    exact List.mem_map.mpr ⟨p, hp, by simp [of_decide_eq_true hpk]⟩
  · exact List.mem_append_right _ (List.mem_singleton.mpr rfl)

theorem mapInsert_keys {H : Type} (m : List (Nat × H)) (k : Nat) (v : H)
    (hnd : (m.map Prod.fst).Nodup) :
    ((mapInsert m k v).map Prod.fst).Nodup := by
  rw [mapInsert]
  split
  · next hany =>
    have : (m.map (fun p => if p.1 = k then (k, v) else p)).map Prod.fst
        = m.map Prod.fst := by
      rw [List.map_map]
      exact List.map_congr_left fun p _ => by
        by_cases hpk : p.1 = k <;> simp [hpk]
    rw [this]
    exact hnd
  · next hany =>
    have hk : k ∉ m.map Prod.fst := by
      intro hmem
      obtain ⟨p, hp, hpk⟩ := List.mem_map.mp hmem
      exact hany (List.any_eq_true.mpr ⟨p, hp, by simp [hpk]⟩)
    simp only [List.map_append, List.map_cons, List.map_nil]
    exact List.Nodup.append hnd (List.nodup_singleton k)
      (by simpa [List.disjoint_singleton] using hk)

/-- Claim C10: on a renderer whose first render has not happened yet and
whose temporary registration map is live (with distinct keys),
registering a handler succeeds and the first render freezes it into the
dispatch table; that first render discards the temporary map (sets it to
nil), any later registration faults on the nil-map assignment, and later
renders leave the frozen table untouched. -/
theorem c10_registration {H : Type} (defaults : List (Nat × H)) (wrap : H → H)
    (r : GoRenderer H) (k : Nat) (f : H) (m : List (Nat × H))
    (hinit : r.initDone = false)
    (htmp : r.nodeRendererFuncsTmp = some m)
    (hkeys : (m.map Prod.fst).Nodup) :
    ∃ r', registerFunc r k f = some r' ∧
      (renderOnce defaults wrap r').nodeRendererFuncsTmp = none ∧
      (renderOnce defaults wrap r').initDone = true ∧
      ((renderOnce defaults wrap r').nodeRendererFuncs)[k]? = some (some (wrap f)) ∧
      (∀ (k2 : Nat) (f2 : H),
        registerFunc (renderOnce defaults wrap r') k2 f2 = none) ∧
      renderOnce defaults wrap (renderOnce defaults wrap r')
        = renderOnce defaults wrap r' := by
  refine ⟨{ r with
      nodeRendererFuncsTmp := some (mapInsert m k f),
      maxKind := if k > r.maxKind then k else r.maxKind }, ?_, ?_, ?_, ?_, ?_, ?_⟩
  · rw [registerFunc, htmp]
  · simp [renderOnce, hinit]
  · simp [renderOnce, hinit]
  · simp only [renderOnce, hinit]
    rw [if_neg (by simp [hinit])]
    simp only [buildFuncs, Option.getD_some]
    apply foldl_set_lookup
    · exact mapInsert_mem m k f
    · exact mapInsert_keys m k f hkeys
    · simp only [List.length_map, List.length_range]
      split <;> omega
  · intro k2 f2
    simp [registerFunc, renderOnce, hinit]
  · simp [renderOnce, hinit]

/-- Claim C10 (witness): a fresh renderer over natural-number handlers —
registering kind 5 before the first render is effective, the first render
nils the temporary map, and a registration after it faults. -/
theorem c10_registration_witness :
    (newRenderer : GoRenderer Nat).initDone = false ∧
    (newRenderer : GoRenderer Nat).nodeRendererFuncsTmp = some [] ∧
    ∃ r', registerFunc (newRenderer : GoRenderer Nat) 5 7 = some r' ∧
      (renderOnce [] id r').nodeRendererFuncsTmp = none ∧
      (renderOnce [] id r').initDone = true ∧
      ((renderOnce [] id r').nodeRendererFuncs)[5]? = some (some (id 7)) ∧
      (∀ (k2 : Nat) (f2 : Nat), registerFunc (renderOnce [] id r') k2 f2 = none) ∧
      renderOnce [] id (renderOnce [] id r') = renderOnce [] id r' :=
  ⟨rfl, rfl, c10_registration [] id newRenderer 5 7 [] rfl rfl List.nodup_nil⟩

end GoldmarkMd
